import Mathlib

/-!
Verification of the TenantManager billing and payment module.

The definitions below are a shallow embedding of the TypeScript source:

* `src/screen/Payment/PaymentFormScreen.tsx` — bill computation
  (`diffUnits`, `electricity`, `total`) and the edit gate;
* `src/screen/Payment/PaymentViewScreen.tsx` — payment recording
  (`savePayment`, `nextPaid`, `nextStatus`, `appendPaymentComment`);
* `src/service/TenantRoomService.ts` — occupancy assignment and vacating;
* `src/service/MeterReadingService.ts` — latest meter reading per room.

Currency amounts and meter readings are JavaScript numbers in the source;
they are modelled as exact rationals `ℚ` (meter readings as integers `ℤ`),
which is faithful for the validated inputs (digit-only strings).
-/

namespace TenantManager

/-- Bill status, embedding the string literals `'UNPAID' | 'PARTIAL' | 'PAID'`
used throughout the source. -/
inductive Status where
  | UNPAID
  | PARTIAL
  | PAID
deriving DecidableEq, Repr

/-! ## Bill computation (PaymentFormScreen.tsx, lines 100–106)

```ts
const rent = selectedRoom?.rent ? Number(selectedRoom.rent) : 0;
const water = settings.water || 0;
const currentMeterNum = currentMeter ? Number(currentMeter) : 0;
const diffUnits = Math.max(0, currentMeterNum - previousMeter);
const electricity = diffUnits * (settings.electricity_unit || 0);
const adHoc = adHocAmount ? Number(adHocAmount) : 0;
const total = rent + water + electricity + adHoc;
```
-/

/-- Inputs to the bill computation after the form's field parsing.
`adHocAmount = none` models the empty ad-hoc field (treated as 0). -/
structure BillInput where
  rent : ℚ
  water : ℚ
  prevMeter : ℤ
  currMeter : ℤ
  rate : ℚ
  adHocAmount : Option ℚ

/-- `diffUnits = Math.max(0, currentMeterNum - previousMeter)`. -/
def diffUnits (i : BillInput) : ℤ :=
  max 0 (i.currMeter - i.prevMeter)

/-- `electricity = diffUnits * (settings.electricity_unit || 0)`. -/
def electricityCharge (i : BillInput) : ℚ :=
  (diffUnits i : ℚ) * i.rate

/-- `adHoc = adHocAmount ? Number(adHocAmount) : 0`. -/
def adHocValue (i : BillInput) : ℚ :=
  i.adHocAmount.getD 0

/-- `total = rent + water + electricity + adHoc`. -/
def billTotal (i : BillInput) : ℚ :=
  i.rent + i.water + electricityCharge i + adHocValue i

/-- The total as the specification states it:
`total = rent + water + units*rate + adhoc`, with `units = max(0, curr − prev)`
and `adhoc` defaulting to 0 when absent. Stated from the spec's words, to be
compared with `billTotal` (which is stated from the source). -/
def specTotal (rent water : ℚ) (prev curr : ℤ) (rate : ℚ) (adhoc : Option ℚ) : ℚ :=
  rent + water + (max 0 (curr - prev) : ℤ) * rate + adhoc.getD 0

/-! ## JavaScript string trimming

`String.prototype.trim` removes leading and trailing JavaScript whitespace
(WhiteSpace and LineTerminator code points). It is embedded here because
`appendPaymentComment` (PaymentViewScreen.tsx, lines 76–79) calls it. -/

/-- The JavaScript WhiteSpace / LineTerminator code points recognised by
`String.prototype.trim`. -/
def isJsWhitespace (c : Char) : Bool :=
  c.val == 0x9 || c.val == 0xA || c.val == 0xB || c.val == 0xC || c.val == 0xD ||
  c.val == 0x20 || c.val == 0xA0 || c.val == 0x1680 ||
  (0x2000 ≤ c.val && c.val ≤ 0x200A) ||
  c.val == 0x2028 || c.val == 0x2029 || c.val == 0x202F || c.val == 0x205F ||
  c.val == 0x3000 || c.val == 0xFEFF

/-- Character-list version of `trim`: drop whitespace at both ends. -/
def jsTrimList (l : List Char) : List Char :=
  (((l.dropWhile isJsWhitespace).reverse.dropWhile isJsWhitespace)).reverse

/-- `s.trim()` of JavaScript. -/
def jsTrim (s : String) : String :=
  ⟨jsTrimList s.data⟩

/-! ## Payment comment log (PaymentViewScreen.tsx, lines 76–79)

```ts
function appendPaymentComment(existing: string | null | undefined, line: string) {
  const base = (existing || '').trim();
  return base.length ? `${base}\n${line}` : line;
}
```
-/

/-- `appendPaymentComment`: `existing = none` models `null`/`undefined`. -/
def appendPaymentComment (existing : Option String) (line : String) : String :=
  let base := jsTrim (existing.getD "")
  if base.length ≠ 0 then base ++ "\n" ++ line else line

/-! ## Payment recording (PaymentViewScreen.tsx, lines 24, 67–79, 173–175, 246–292)

```ts
const formatMoney = (n) => `₹${Math.round(Number(n || 0))}`;
...
const pending = Math.max(0, total - paid);
const amountNum = paymentAmount.trim().length ? Number(paymentAmount) : 0;
const isAmountValid = Number.isFinite(amountNum) && amountNum > 0 && amountNum <= pending;
const nextPaid = Math.min(total, paid + (isAmountValid ? amountNum : 0));
const nextPending = Math.max(0, total - nextPaid);
const nextStatus = nextPaid <= 0 ? 'UNPAID' : nextPending <= 0 ? 'PAID' : 'PARTIAL';
const savePayment = async () => {
  if (!isAmountValid) return;
  const note = paymentNote.trim();
  const line = `[${formatDateTime(now)}] ${paymentMethod} received ${formatMoney(amountNum)}${
    note ? ` • ${note}` : ''} (Paid ${formatMoney(nextPaid)}, Pending ${formatMoney(nextPending)})`;
  const nextComment = appendPaymentComment(bill.paid_amount_comment, line);
  await updateBillPayment({ billId, paidAmount: nextPaid, status: nextStatus,
                            paidAmountComment: nextComment });
};
```
-/

/-- The payment-relevant state of a bill row. `comment = none` models a null
`paid_amount_comment` column. -/
structure Bill where
  total : ℚ
  paid : ℚ
  status : Status
  comment : Option String
deriving DecidableEq, Repr

/-- `pending = Math.max(0, total - paid)`. -/
def Bill.pending (b : Bill) : ℚ :=
  max 0 (b.total - b.paid)

/-- `nextStatus = nextPaid <= 0 ? 'UNPAID' : nextPending <= 0 ? 'PAID' : 'PARTIAL'`. -/
def deriveStatus (nextPaid nextPending : ℚ) : Status :=
  if nextPaid ≤ 0 then .UNPAID else if nextPending ≤ 0 then .PAID else .PARTIAL

/-- `Math.round`, i.e. `⌊x + 1/2⌋`, used by `formatMoney`. -/
def jsRound (q : ℚ) : ℤ :=
  ⌊q + 1 / 2⌋

/-- `formatMoney = (n) => '₹' + Math.round(Number(n || 0))`. -/
def formatMoney (q : ℚ) : String :=
  "₹" ++ toString (jsRound q)

/-- The audit line written by `savePayment`; `note` is already trimmed
(`paymentNote.trim()` in the source). -/
def paymentLine (ts method : String) (amount : ℚ) (note : String)
    (nextPaid nextPending : ℚ) : String :=
  "[" ++ ts ++ "] " ++ method ++ " received " ++ formatMoney amount ++
    (if note ≠ "" then " • " ++ note else "") ++
    " (Paid " ++ formatMoney nextPaid ++ ", Pending " ++ formatMoney nextPending ++ ")"

/-- A newly created bill: `createBill` persists `paid_amount = 0`,
`status = 'UNPAID'` and no payment comment when the create form omits them
(BillService `createBill`, unnamed part 015, lines 71–97). -/
def newBill (total : ℚ) : Bill :=
  { total := total, paid := 0, status := .UNPAID, comment := none }

/-- The audit line `savePayment` constructs for a bill and a valid amount:
`nextPaid`, `nextPending` are recomputed exactly as the source does and the
note is `paymentNote.trim()`. -/
def savePaymentLine (b : Bill) (amount : ℚ) (ts method noteRaw : String) : String :=
  paymentLine ts method amount (jsTrim noteRaw)
    (min b.total (b.paid + amount))
    (max 0 (b.total - min b.total (b.paid + amount)))

/-- One `record_payment` attempt (`savePayment`). An invalid amount returns
early without persisting anything, so the bill is returned unchanged;
a valid amount persists `nextPaid`, the derived status and the appended
comment to the same bill row.

The row update performed by `updateBillPayment` is modelled from the spec:
the current `BillService` is not under `src/` (only an older version without
`updateBillPayment` is); the spec says it persists
`{paid_amount: next_paid, status: next_status, paid_amount_comment: appended_text}`
as an update to the existing bill row. -/
def recordPayment (b : Bill) (amount : ℚ) (ts method noteRaw : String) : Bill :=
  if 0 < amount ∧ amount ≤ b.pending then
    let nextPaid := min b.total (b.paid + amount)
    let nextPending := max 0 (b.total - nextPaid)
    { total := b.total
      paid := nextPaid
      status := deriveStatus nextPaid nextPending
      comment := some (appendPaymentComment b.comment (savePaymentLine b amount ts method noteRaw)) }
  else b

/-- Arguments of one payment attempt in a sequence. -/
structure PaymentCall where
  amount : ℚ
  ts : String
  method : String
  note : String

/-- Run a sequence of payment attempts against a bill. -/
def runPayments (b : Bill) (calls : List PaymentCall) : Bill :=
  calls.foldl (fun s c => recordPayment s c.amount c.ts c.method c.note) b

/-! ## Bill edit gate (PaymentFormScreen.tsx, lines 603–612; PaymentViewScreen.tsx, line 245)

```ts
const alreadyPaid = Number(b.paid_amount || 0) > 0;
if (alreadyPaid) {
  Alert.alert('Not allowed', 'You can edit a bill only when paid amount is 0.', ...);
  return;
}
...
const canEditBill = paid <= 0;
```
-/

/-- The exact alert message shown when the edit form is opened on a paid bill. -/
def editGateMessage : String :=
  "You can edit a bill only when paid amount is 0."

/-- `canEditBill = paid <= 0`. -/
def canEditBill (paid : ℚ) : Bool :=
  paid ≤ 0

/-- Attempt to enter edit mode and apply an edit `f` to the bill: if any
amount has been paid the edit is refused (the form navigates back without
touching the bill) and the alert message is surfaced; otherwise the edit
proceeds. -/
def attemptEditBill (b : Bill) (f : Bill → Bill) : Bill × Option String :=
  if 0 < b.paid then (b, some editGateMessage) else (f b, none)

/-! ## Occupancy ledger (TenantRoomService.ts, lines 50–68, 96–135)

```ts
const fetchActiveTenantForRoom = async (roomId) => {
  ... .from('tenant_room_mapping').select('*').eq('room_id', roomId)
      .eq('user_id', userId).is('leaving_date', null).maybeSingle();
};
const addTenantToRoom = async ({tenant_id, room_id, joining_date}) => {
  const existing = await fetchActiveTenantForRoom(room_id);
  if (existing) throw new Error('Room already occupied');
  ... .insert({tenant_id, room_id, joining_date, user_id});
};
const vacateRoom = async (mappingId) => {
  ... .update({ leaving_date: new Date().toISOString() }).eq('id', mappingId);
};
```
-/

/-- A `tenant_room_mapping` row (one owner's rows). -/
structure Mapping where
  id : ℕ
  tenant_id : ℕ
  room_id : ℕ
  joining_date : String
  leaving_date : Option String
deriving DecidableEq, Repr

/-- The `.eq('room_id', roomId).is('leaving_date', null)` filter. -/
def isActiveFor (room : ℕ) (m : Mapping) : Bool :=
  m.room_id == room && m.leaving_date == none

/-- `fetchActiveTenantForRoom`: the active mapping of a room, if any. -/
def fetchActiveTenantForRoom (db : List Mapping) (room : ℕ) : Option Mapping :=
  db.find? (isActiveFor room)

/-- `addTenantToRoom`: check-then-act insert of a new open mapping. -/
def addTenantToRoom (db : List Mapping) (newId tenant room : ℕ) (jd : String) :
    Except String (List Mapping) :=
  match fetchActiveTenantForRoom db room with
  | some _ => .error "Room already occupied"
  | none => .ok (db ++ [{ id := newId, tenant_id := tenant, room_id := room,
                          joining_date := jd, leaving_date := none }])

/-- `vacateRoom`: set `leaving_date = now` on the row with the given id. -/
def vacateRoom (db : List Mapping) (mid : ℕ) (now : String) : List Mapping :=
  db.map (fun m => if m.id == mid then { m with leaving_date := some now } else m)

/-- One occupancy-ledger operation. -/
inductive OccOp where
  | assign (newId tenant room : ℕ) (jd : String)
  | vacate (mid : ℕ) (now : String)

/-- Apply an operation to the ledger; a rejected `assign` (thrown error)
leaves the table unchanged. -/
def applyOccOp (db : List Mapping) (op : OccOp) : List Mapping :=
  match op with
  | .assign i t r j =>
    match addTenantToRoom db i t r j with
    | .ok db' => db'
    | .error _ => db
  | .vacate mid now => vacateRoom db mid now

/-- Number of active (open) mappings of a room. -/
def activeCount (db : List Mapping) (room : ℕ) : ℕ :=
  (db.filter (isActiveFor room)).length

/-- The occupancy invariant: at most one open mapping per room. -/
def OccInvariant (db : List Mapping) : Prop :=
  ∀ room, activeCount db room ≤ 1

/-! ## Meter-reading chain (MeterReadingService.ts, lines 35–48;
PaymentFormScreen.tsx, lines 122–134)

```ts
export async function fetchLatestMeterReadingForRoom({roomId}) {
  ... .from('meter_reading').select('id, unit, created_at')
      .eq('room_id', params.roomId)
      .order('created_at', { ascending: false }).limit(1).maybeSingle();
}
...
const latest = await fetchLatestMeterReadingForRoom({ roomId: pair.room.id });
setPreviousMeter(latest?.unit != null ? Number(latest.unit) : 0);
```
-/

/-- A `meter_reading` row; `unit` is a nullable numeric column. -/
structure Reading where
  id : ℕ
  room_id : ℕ
  tenant_id : ℕ
  unit : Option ℤ
  created_at : ℕ
deriving DecidableEq, Repr

/-- Pick the later of an accumulator and a row (strictly greater
`created_at` replaces). -/
def laterReading (acc : Option Reading) (r : Reading) : Option Reading :=
  match acc with
  | none => some r
  | some a => if a.created_at < r.created_at then some r else some a

/-- `fetchLatestMeterReadingForRoom`: among the room's rows, the one with
maximal `created_at` (order by `created_at` descending, limit 1); the query
does not filter on `tenant_id`. -/
def latestForRoom (db : List Reading) (room : ℕ) : Option Reading :=
  (db.filter (fun r => r.room_id == room)).foldl laterReading none

/-- The previous meter reading used by `selectPair`:
`latest?.unit != null ? Number(latest.unit) : 0`. -/
def previousMeterForRoom (db : List Reading) (room : ℕ) : ℤ :=
  ((latestForRoom db room).bind Reading.unit).getD 0

/-- A comment value as the system stores it: either absent (a freshly
created bill) or a log produced by `appendPaymentComment`, which always
starts with the `'['` of its first line's timestamp and ends with the
`')'` of its last line's `(Paid …, Pending …)` suffix. Such a string is a
fixed point of `trim`, so appending never rewrites the stored log. -/
def CanonicalComment (c : Option String) : Prop :=
  c = none ∨ ∃ s, c = some s ∧ s.data.head? = some '[' ∧ s.data.getLast? = some ')'

end TenantManager

namespace TenantManager

/-- C1: for all valid non-negative inputs the computed bill total equals
`rent + water + electricity_charge + ad_hoc_amount`, with the ad-hoc amount
defaulting to 0 when absent; the equality is exact (rational arithmetic). -/
theorem billTotal_eq_specTotal (i : BillInput)
    (hrent : 0 ≤ i.rent) (hwater : 0 ≤ i.water)
    (hprev : 0 ≤ i.prevMeter) (hcurr : 0 ≤ i.currMeter)
    (hrate : 0 ≤ i.rate)
    (hadhoc : ∀ a, i.adHocAmount = some a → 0 ≤ a) :
    billTotal i = specTotal i.rent i.water i.prevMeter i.currMeter i.rate i.adHocAmount
      ∧ (i.adHocAmount = none →
          billTotal i = i.rent + i.water + electricityCharge i + 0) := by
  constructor
  · simp [billTotal, specTotal, electricityCharge, adHocValue, diffUnits]
  · intro h
    simp [billTotal, adHocValue, h]

/-- Witness for `billTotal_eq_specTotal` at the spec's example scenario:
rent 5000, water 200, previous 100, current 150, rate 8, no ad-hoc. -/
theorem billTotal_eq_specTotal_witness :
    billTotal ⟨5000, 200, 100, 150, 8, none⟩ =
      specTotal 5000 200 100 150 8 none := by
  exact (billTotal_eq_specTotal ⟨5000, 200, 100, 150, 8, none⟩
    (by norm_num) (by norm_num) (by norm_num) (by norm_num) (by norm_num)
    (by intro a h; cases h)).1

/-- C2: for non-negative integer readings, `diffUnits` is `curr − prev` when
`prev ≤ curr` and is clamped to `0` (never negative) when `curr < prev`; the
electricity charge is `diffUnits × rate`. -/
theorem diffUnits_clamped (i : BillInput)
    (hprev : 0 ≤ i.prevMeter) (hcurr : 0 ≤ i.currMeter) :
    (i.prevMeter ≤ i.currMeter → diffUnits i = i.currMeter - i.prevMeter)
      ∧ (i.currMeter < i.prevMeter → diffUnits i = 0)
      ∧ 0 ≤ diffUnits i
      ∧ electricityCharge i = (diffUnits i : ℚ) * i.rate := by
  refine ⟨?_, ?_, ?_, rfl⟩
  · intro h
    simp only [diffUnits]
    omega
  · intro h
    simp only [diffUnits]
    omega
  · simp only [diffUnits]
    omega

/-- Witness for `diffUnits_clamped`: readings 100 → 150 give 50 units,
and 150 → 100 gives 0 units. -/
theorem diffUnits_clamped_witness :
    diffUnits ⟨5000, 200, 100, 150, 8, none⟩ = 50
      ∧ diffUnits ⟨5000, 200, 150, 100, 8, none⟩ = 0 := by
  constructor
  · have h := (diffUnits_clamped ⟨5000, 200, 100, 150, 8, none⟩
      (by norm_num) (by norm_num)).1 (by norm_num)
    rw [h]; norm_num
  · have h := ((diffUnits_clamped ⟨5000, 200, 150, 100, 8, none⟩
      (by norm_num) (by norm_num)).2).1 (by norm_num)
    exact h

/-! ### Payment state machine: helper lemmas -/

theorem recordPayment_total (b : Bill) (a : ℚ) (ts m n : String) :
    (recordPayment b a ts m n).total = b.total := by
  unfold recordPayment
  split_ifs <;> rfl

theorem recordPayment_paid_valid (b : Bill) (a : ℚ) (ts m n : String)
    (h : 0 < a ∧ a ≤ b.pending) :
    (recordPayment b a ts m n).paid = min b.total (b.paid + a) := by
  unfold recordPayment
  rw [if_pos h]

theorem recordPayment_invalid (b : Bill) (a : ℚ) (ts m n : String)
    (h : ¬(0 < a ∧ a ≤ b.pending)) :
    recordPayment b a ts m n = b := by
  unfold recordPayment
  rw [if_neg h]

theorem recordPayment_paid_nonneg (b : Bill) (a : ℚ) (ts m n : String)
    (h0 : 0 ≤ b.paid) (h1 : b.paid ≤ b.total) :
    0 ≤ (recordPayment b a ts m n).paid := by
  unfold recordPayment
  split_ifs with hv
  · exact le_min (le_trans h0 h1) (by linarith [hv.1])
  · exact h0

theorem recordPayment_paid_le_total (b : Bill) (a : ℚ) (ts m n : String)
    (h1 : b.paid ≤ b.total) :
    (recordPayment b a ts m n).paid ≤ (recordPayment b a ts m n).total := by
  unfold recordPayment
  split_ifs with hv
  · exact min_le_left _ _
  · exact h1

theorem recordPayment_paid_mono (b : Bill) (a : ℚ) (ts m n : String)
    (h1 : b.paid ≤ b.total) :
    b.paid ≤ (recordPayment b a ts m n).paid := by
  unfold recordPayment
  split_ifs with hv
  · exact le_min h1 (by linarith [hv.1])
  · exact le_refl _

theorem runPayments_total (b : Bill) (calls : List PaymentCall) :
    (runPayments b calls).total = b.total := by
  induction calls generalizing b with
  | nil => rfl
  | cons c cs ih =>
    show (runPayments (recordPayment b c.amount c.ts c.method c.note) cs).total = b.total
    rw [ih, recordPayment_total]

theorem runPayments_inv (b : Bill) (calls : List PaymentCall)
    (h0 : 0 ≤ b.paid) (h1 : b.paid ≤ b.total) :
    0 ≤ (runPayments b calls).paid
      ∧ (runPayments b calls).paid ≤ (runPayments b calls).total := by
  induction calls generalizing b with
  | nil => exact ⟨h0, h1⟩
  | cons c cs ih =>
    show 0 ≤ (runPayments (recordPayment b c.amount c.ts c.method c.note) cs).paid ∧ _
    refine ih _ ?_ ?_
    · exact recordPayment_paid_nonneg b c.amount c.ts c.method c.note h0 h1
    · exact recordPayment_paid_le_total b c.amount c.ts c.method c.note h1

/-- C3: status derivation is a pure function of `(next_paid, total)`: with
`total > 0`, the status after a payment is `UNPAID` when `next_paid ≤ 0`,
`PAID` when `total − next_paid ≤ 0`, and `PARTIAL` otherwise
(`0 < next_paid < total`); and `recordPayment` sets exactly this status. -/
theorem status_pure_function (total nextPaid : ℚ) (htotal : 0 < total) :
    (nextPaid ≤ 0 → deriveStatus nextPaid (max 0 (total - nextPaid)) = .UNPAID)
    ∧ (total - nextPaid ≤ 0 → deriveStatus nextPaid (max 0 (total - nextPaid)) = .PAID)
    ∧ (0 < nextPaid → nextPaid < total →
        deriveStatus nextPaid (max 0 (total - nextPaid)) = .PARTIAL)
    ∧ ∀ (b : Bill) (a : ℚ) (ts m n : String), b.total = total →
        0 < a → a ≤ b.pending →
        (recordPayment b a ts m n).status =
          deriveStatus (min b.total (b.paid + a))
            (max 0 (b.total - min b.total (b.paid + a))) := by
  refine ⟨?_, ?_, ?_, ?_⟩
  · intro h
    unfold deriveStatus
    rw [if_pos h]
  · intro h
    unfold deriveStatus
    rw [if_neg (by linarith), if_pos (by simp [h])]
  · intro h1 h2
    unfold deriveStatus
    rw [if_neg (by linarith), if_neg]
    intro hmax
    have : total - nextPaid ≤ max 0 (total - nextPaid) := le_max_right _ _
    linarith
  · intro b a ts m n htot ha hle
    unfold recordPayment
    rw [if_pos ⟨ha, hle⟩]

/-- Witness for `status_pure_function` at the spec's example: total 5600,
a partial payment of 2000 gives `PARTIAL`, full 5600 gives `PAID`, 0 gives
`UNPAID`. -/
theorem status_pure_function_witness :
    deriveStatus 2000 (max 0 ((5600 : ℚ) - 2000)) = .PARTIAL
      ∧ deriveStatus 5600 (max 0 ((5600 : ℚ) - 5600)) = .PAID
      ∧ deriveStatus 0 (max 0 ((5600 : ℚ) - 0)) = .UNPAID := by
  refine ⟨?_, ?_, ?_⟩
  · exact (status_pure_function 5600 2000 (by norm_num)).2.2.1 (by norm_num) (by norm_num)
  · exact (status_pure_function 5600 5600 (by norm_num)).2.1 (by norm_num)
  · exact (status_pure_function 5600 0 (by norm_num)).1 (by norm_num)

/-- C4: from a newly created bill (`paid_amount = 0`, status `UNPAID`),
over any sequence of `record_payment` attempts the paid amount stays
non-negative, never exceeds the total, and is non-decreasing at every step;
each accepted step computes `next_paid = min(total, paid_amount + amount)`. -/
theorem payment_monotonicity (total : ℚ) (htotal : 0 ≤ total) :
    (∀ calls : List PaymentCall,
        0 ≤ (runPayments (newBill total) calls).paid
          ∧ (runPayments (newBill total) calls).paid ≤ total
          ∧ ∀ c : PaymentCall,
              (runPayments (newBill total) calls).paid ≤
                (runPayments (newBill total) (calls ++ [c])).paid)
    ∧ ∀ (b : Bill) (a : ℚ) (ts m n : String), 0 < a → a ≤ b.pending →
        (recordPayment b a ts m n).paid = min b.total (b.paid + a) := by
  constructor
  · intro calls
    have h0 : (0 : ℚ) ≤ (newBill total).paid := le_refl 0
    have h1 : (newBill total).paid ≤ (newBill total).total := htotal
    obtain ⟨hn, hle⟩ := runPayments_inv (newBill total) calls h0 h1
    rw [runPayments_total] at hle
    refine ⟨hn, hle, ?_⟩
    intro c
    have hstep : runPayments (newBill total) (calls ++ [c]) =
        recordPayment (runPayments (newBill total) calls) c.amount c.ts c.method c.note := by
      unfold runPayments
      rw [List.foldl_append]
      rfl
    rw [hstep]
    exact recordPayment_paid_mono _ _ _ _ _ (runPayments_inv (newBill total) calls h0 h1).2
  · intro b a ts m n ha hle
    exact recordPayment_paid_valid b a ts m n ⟨ha, hle⟩

/-- Witness for `payment_monotonicity`: the spec's example sequence 2000
then 3600 on a 5600 bill keeps `paid` within `[0, 5600]`. -/
theorem payment_monotonicity_witness :
    0 ≤ (runPayments (newBill 5600)
          [⟨2000, "t1", "UPI", ""⟩, ⟨3600, "t2", "CASH", ""⟩]).paid
      ∧ (runPayments (newBill 5600)
          [⟨2000, "t1", "UPI", ""⟩, ⟨3600, "t2", "CASH", ""⟩]).paid ≤ 5600 := by
  have h := (payment_monotonicity 5600 (by norm_num)).1
    [⟨2000, "t1", "UPI", ""⟩, ⟨3600, "t2", "CASH", ""⟩]
  exact ⟨h.1, h.2.1⟩

/-- C5: `record_payment` rejects `amount ≤ 0`, rejects `amount > pending`,
and rejects any payment when the bill has nothing pending (a `PAID` bill has
`pending = 0`, so `PAID` is terminal); a rejected attempt leaves the bill row
(`paid_amount`, `status`, `paid_amount_comment`) unchanged. -/
theorem recordPayment_rejects (b : Bill) (a : ℚ) (ts m n : String) :
    (a ≤ 0 → recordPayment b a ts m n = b)
    ∧ (b.pending < a → recordPayment b a ts m n = b)
    ∧ (b.pending = 0 → recordPayment b a ts m n = b) := by
  refine ⟨?_, ?_, ?_⟩
  · intro h
    exact recordPayment_invalid b a ts m n (by rintro ⟨h1, -⟩; linarith)
  · intro h
    exact recordPayment_invalid b a ts m n (by rintro ⟨-, h2⟩; linarith)
  · intro h
    exact recordPayment_invalid b a ts m n (by rintro ⟨h1, h2⟩; rw [h] at h2; linarith)

/-- Witness for `recordPayment_rejects`: on a fully paid 5600 bill
(`pending = 0`) both a 0 payment and a 100 payment are rejected unchanged. -/
theorem recordPayment_rejects_witness :
    recordPayment ⟨5600, 5600, .PAID, none⟩ 0 "t" "UPI" "" = ⟨5600, 5600, .PAID, none⟩
      ∧ recordPayment ⟨5600, 5600, .PAID, none⟩ 100 "t" "UPI" "" = ⟨5600, 5600, .PAID, none⟩ := by
  have hp : (Bill.pending ⟨5600, 5600, .PAID, none⟩) = 0 := by
    simp [Bill.pending]
  exact ⟨(recordPayment_rejects ⟨5600, 5600, .PAID, none⟩ 0 "t" "UPI" "").1 (by norm_num),
    (recordPayment_rejects ⟨5600, 5600, .PAID, none⟩ 100 "t" "UPI" "").2.2 hp⟩

/-! ### Bill edit gate -/

/-- C6 counterexample: the claim states the refusal signal is exactly
`"You can edit a bill only when paid amount is 0"`, but the source alert
text carries a trailing period (`'You can edit a bill only when paid
amount is 0.'`), so a bill with `paid_amount = 2000` is refused with a
different string. -/
theorem edit_gate_message_counterexample :
    (attemptEditBill ⟨5600, 2000, .PARTIAL, none⟩ id).2 ≠
      some "You can edit a bill only when paid amount is 0" := by
  unfold attemptEditBill
  rw [if_pos (show (0 : ℚ) < Bill.paid ⟨5600, 2000, .PARTIAL, none⟩ by norm_num)]
  intro hcontra
  have h := Option.some.inj hcontra
  revert h
  decide

/-- C6 (amended): entering edit mode is permitted exactly when
`paid_amount = 0`; whenever `paid_amount > 0` the edit is refused as a
no-op with the error signal
`"You can edit a bill only when paid amount is 0."` and the bill is left
unchanged. -/
theorem edit_gate (b : Bill) (f : Bill → Bill) (hpaid : 0 ≤ b.paid) :
    (0 < b.paid →
        attemptEditBill b f = (b, some "You can edit a bill only when paid amount is 0."))
    ∧ (canEditBill b.paid = true ↔ b.paid = 0)
    ∧ (b.paid = 0 → attemptEditBill b f = (f b, none)) := by
  refine ⟨?_, ?_, ?_⟩
  · intro h
    unfold attemptEditBill
    rw [if_pos h]
    rfl
  · unfold canEditBill
    simp only [decide_eq_true_eq]
    exact ⟨fun h => le_antisymm h hpaid, fun h => le_of_eq h⟩
  · intro h
    unfold attemptEditBill
    rw [if_neg (by rw [h]; exact lt_irrefl 0)]

/-- Witness for `edit_gate`: a bill with 2000 paid is refused with the
source's alert text; a bill with 0 paid may be edited. -/
theorem edit_gate_witness :
    attemptEditBill ⟨5600, 2000, .PARTIAL, none⟩ id =
      (⟨5600, 2000, .PARTIAL, none⟩, some "You can edit a bill only when paid amount is 0.")
    ∧ attemptEditBill ⟨5600, 0, .UNPAID, none⟩ id = (⟨5600, 0, .UNPAID, none⟩, none) :=
  ⟨(edit_gate ⟨5600, 2000, .PARTIAL, none⟩ id (by norm_num)).1 (by norm_num),
   (edit_gate ⟨5600, 0, .UNPAID, none⟩ id (by norm_num)).2.2 rfl⟩

/-! ### Comment trimming: helper lemmas -/

theorem jsTrimList_eq_nil_iff (l : List Char) :
    jsTrimList l = [] ↔ ∀ c ∈ l, isJsWhitespace c = true := by
  unfold jsTrimList
  rw [List.reverse_eq_nil_iff, List.dropWhile_eq_nil_iff]
  constructor
  · intro h c hc
    have hl := List.takeWhile_append_dropWhile isJsWhitespace l
    rw [← hl] at hc
    rcases List.mem_append.mp hc with h1 | h2
    · exact List.mem_takeWhile_imp h1
    · exact h c (by rwa [List.mem_reverse])
  · intro h c hc
    rw [List.mem_reverse] at hc
    exact h c ((List.dropWhile_sublist _).subset hc)

theorem jsTrim_eq_empty_iff (s : String) :
    jsTrim s = "" ↔ ∀ c ∈ s.data, isJsWhitespace c = true := by
  unfold jsTrim
  rw [← jsTrimList_eq_nil_iff s.data]
  constructor
  · intro h
    exact congrArg String.data h
  · intro h
    rw [h]

theorem jsTrimList_eq_self (l : List Char)
    (h1 : ∀ c, l.head? = some c → isJsWhitespace c = false)
    (h2 : ∀ c, l.getLast? = some c → isJsWhitespace c = false) :
    jsTrimList l = l := by
  unfold jsTrimList
  have e1 : l.dropWhile isJsWhitespace = l := by
    cases l with
    | nil => rfl
    | cons a t =>
      rw [List.dropWhile_cons, h1 a rfl]
      simp
  rw [e1]
  have e2 : l.reverse.dropWhile isJsWhitespace = l.reverse := by
    cases hr : l.reverse with
    | nil => rfl
    | cons a t =>
      have ha : l.getLast? = some a := by
        rw [← List.head?_reverse, hr]
        rfl
      rw [List.dropWhile_cons, h2 a ha]
      simp
  rw [e2, List.reverse_reverse]

theorem head?_append_of_head? {l₁ l₂ : List Char} {c : Char}
    (h : l₁.head? = some c) : (l₁ ++ l₂).head? = some c := by
  cases l₁ with
  | nil => cases h
  | cons a t => simpa using h

theorem getLast?_append_of_ne_nil (l₁ : List Char) {l₂ : List Char}
    (h : l₂ ≠ []) : (l₁ ++ l₂).getLast? = l₂.getLast? := by
  rw [← List.head?_reverse, ← List.head?_reverse, List.reverse_append]
  cases hl : l₂.reverse with
  | nil => exact absurd (List.reverse_eq_nil_iff.mp hl) h
  | cons a t => simp

theorem data_ne_nil_of_head? {s : String} {c : Char}
    (h : s.data.head? = some c) : s.data ≠ [] := by
  intro hc
  rw [hc] at h
  cases h

theorem length_ne_zero_of_head? {s : String} {c : Char}
    (h : s.data.head? = some c) : s.length ≠ 0 := by
  intro hc
  exact data_ne_nil_of_head? h (List.length_eq_zero.mp hc)

/-- C10: `appendPaymentComment` first strips leading/trailing whitespace
from the previously stored log: a `null`, empty or whitespace-only existing
value yields exactly `line`, and any other existing value yields
`trim(existing) ++ "\n" ++ line`. -/
theorem appendPaymentComment_normalizes (existing : Option String) (line : String) :
    (existing = none → appendPaymentComment existing line = line)
    ∧ (∀ s, existing = some s → (∀ c ∈ s.data, isJsWhitespace c = true) →
        appendPaymentComment existing line = line)
    ∧ (∀ s, existing = some s → ¬(∀ c ∈ s.data, isJsWhitespace c = true) →
        appendPaymentComment existing line = jsTrim s ++ "\n" ++ line) := by
  refine ⟨?_, ?_, ?_⟩
  · intro h
    subst h
    rfl
  · intro s h hws
    subst h
    unfold appendPaymentComment
    have ht : jsTrim (Option.getD (some s) "") = "" := by
      rw [Option.getD_some]
      exact (jsTrim_eq_empty_iff s).mpr hws
    rw [ht]
    simp
  · intro s h hws
    subst h
    unfold appendPaymentComment
    rw [Option.getD_some]
    rw [if_pos]
    intro hlen
    apply hws
    rw [← jsTrim_eq_empty_iff]
    unfold jsTrim
    have : (jsTrimList s.data).length = 0 := hlen
    rw [List.length_eq_zero.mp this]

/-- Witness for `appendPaymentComment_normalizes`: a whitespace-only stored
value is replaced by the new line alone, and a non-blank stored value is
trimmed and separated by a newline. -/
theorem appendPaymentComment_normalizes_witness :
    appendPaymentComment (some "  ") "[L2]" = "[L2]"
      ∧ appendPaymentComment (some " [L1] ") "[L2]" = jsTrim " [L1] " ++ "\n" ++ "[L2]"
      ∧ appendPaymentComment none "[L2]" = "[L2]" := by
  refine ⟨?_, ?_, ?_⟩
  · exact (appendPaymentComment_normalizes (some "  ") "[L2]").2.1 "  " rfl (by decide)
  · exact (appendPaymentComment_normalizes (some " [L1] ") "[L2]").2.2 " [L1] " rfl (by decide)
  · exact (appendPaymentComment_normalizes none "[L2]").1 rfl

/-! ### Occupancy ledger: helper lemmas -/

theorem filter_length_map_le (f : Mapping → Mapping) (p : Mapping → Bool)
    (h : ∀ a, p (f a) = true → p a = true) (l : List Mapping) :
    ((l.map f).filter p).length ≤ (l.filter p).length := by
  induction l with
  | nil => simp
  | cons a t ih =>
    rw [List.map_cons, List.filter_cons, List.filter_cons]
    by_cases hfa : p (f a) = true
    · rw [if_pos hfa, if_pos (h a hfa)]
      simpa using ih
    · rw [if_neg hfa]
      by_cases hpa : p a = true
      · rw [if_pos hpa]
        exact le_trans ih (by simp)
      · rw [if_neg hpa]
        exact ih

theorem addTenantToRoom_occupied {db : List Mapping} {room : ℕ} {m : Mapping}
    (h : fetchActiveTenantForRoom db room = some m) (i t : ℕ) (jd : String) :
    addTenantToRoom db i t room jd = .error "Room already occupied" := by
  unfold addTenantToRoom
  rw [h]

theorem addTenantToRoom_free {db : List Mapping} {room : ℕ}
    (h : fetchActiveTenantForRoom db room = none) (i t : ℕ) (jd : String) :
    addTenantToRoom db i t room jd = .ok (db ++ [⟨i, t, room, jd, none⟩]) := by
  unfold addTenantToRoom
  rw [h]

theorem applyOccOp_assign (db : List Mapping) (i t r : ℕ) (j : String) :
    applyOccOp db (.assign i t r j) =
      match addTenantToRoom db i t r j with
      | .ok db' => db'
      | .error _ => db := rfl

theorem applyOccOp_preserves (db : List Mapping) (op : OccOp)
    (hinv : OccInvariant db) : OccInvariant (applyOccOp db op) := by
  cases op with
  | assign i t r j =>
    rw [applyOccOp_assign]
    cases hfind : fetchActiveTenantForRoom db r with
    | some m =>
      rw [addTenantToRoom_occupied hfind i t j]
      exact hinv
    | none =>
      rw [addTenantToRoom_free hfind i t j]
      show OccInvariant (db ++ [⟨i, t, r, j, none⟩])
      intro room
      unfold activeCount
      rw [List.filter_append, List.length_append]
      by_cases hroom : room = r
      · subst hroom
        have hnil : db.filter (isActiveFor room) = [] := by
          rw [List.filter_eq_nil_iff]
          intro m hm
          exact List.find?_eq_none.mp hfind m hm
        rw [hnil]
        simp [isActiveFor]
      · have hnew : isActiveFor room (⟨i, t, r, j, none⟩ : Mapping) = false := by
          simp [isActiveFor]
          omega
        simp only [List.filter_cons, hnew, Bool.false_eq_true, if_false,
          List.filter_nil, List.length_nil, Nat.add_zero]
        exact hinv room
  | vacate mid now =>
    intro room
    show ((vacateRoom db mid now).filter (isActiveFor room)).length ≤ 1
    unfold vacateRoom
    refine le_trans (filter_length_map_le _ _ ?_ db) (hinv room)
    intro a ha
    by_cases hid : (a.id == mid) = true
    · rw [if_pos hid] at ha
      simp [isActiveFor] at ha
    · rwa [if_neg hid] at ha

/-- C7: `assign` (i.e. `addTenantToRoom`) rejects with the error
`"Room already occupied"` and inserts no row when the room already has an
active mapping; consequently, starting from any table satisfying the
occupancy invariant, any sequence of `assign`/`vacate` calls keeps at most
one mapping per room with `leaving_date = null`. -/
theorem occupancy_invariant_preserved :
    (∀ (db : List Mapping) (i t room : ℕ) (jd : String),
        (∃ m ∈ db, isActiveFor room m = true) →
        addTenantToRoom db i t room jd = .error "Room already occupied"
          ∧ applyOccOp db (.assign i t room jd) = db)
    ∧ ∀ db : List Mapping, OccInvariant db →
        ∀ ops : List OccOp, OccInvariant (ops.foldl applyOccOp db) := by
  constructor
  · rintro db i t room jd ⟨m, hm, hact⟩
    have hfind : ∃ x, fetchActiveTenantForRoom db room = some x := by
      cases hf : fetchActiveTenantForRoom db room with
      | none => exact absurd hact (by simpa using List.find?_eq_none.mp hf m hm)
      | some x => exact ⟨x, rfl⟩
    obtain ⟨x, hx⟩ := hfind
    constructor
    · exact addTenantToRoom_occupied hx i t jd
    · rw [applyOccOp_assign, addTenantToRoom_occupied hx i t jd]
  · intro db hinv ops
    induction ops generalizing db with
    | nil => exact hinv
    | cons op rest ih => exact ih _ (applyOccOp_preserves db op hinv)

/-- Witness for `occupancy_invariant_preserved`: assigning to an occupied
room 1 is rejected, and an assign → vacate → assign sequence from an empty
table preserves the invariant. -/
theorem occupancy_invariant_preserved_witness :
    addTenantToRoom [⟨1, 10, 1, "2025-01-01", none⟩] 2 11 1 "2025-02-01" =
        .error "Room already occupied"
      ∧ OccInvariant ([OccOp.assign 1 10 1 "2025-01-01",
          OccOp.vacate 1 "2025-03-01",
          OccOp.assign 2 11 1 "2025-04-01"].foldl applyOccOp []) := by
  constructor
  · exact (occupancy_invariant_preserved.1 [⟨1, 10, 1, "2025-01-01", none⟩] 2 11 1
      "2025-02-01" ⟨⟨1, 10, 1, "2025-01-01", none⟩, by simp, by rfl⟩).1
  · exact occupancy_invariant_preserved.2 [] (by intro room; simp [activeCount]) _

/-! ### Meter-reading chain: helper lemmas -/

theorem foldl_laterReading_spec (l : List Reading) (x : Reading) :
    ∃ y, l.foldl laterReading (some x) = some y
      ∧ (y = x ∨ y ∈ l)
      ∧ x.created_at ≤ y.created_at
      ∧ ∀ r ∈ l, r.created_at ≤ y.created_at := by
  induction l generalizing x with
  | nil => exact ⟨x, rfl, Or.inl rfl, le_refl _, by simp⟩
  | cons a t ih =>
    show ∃ y, t.foldl laterReading (laterReading (some x) a) = some y ∧ _
    by_cases hlt : x.created_at < a.created_at
    · have hstep : laterReading (some x) a = some a := by
        simp [laterReading, hlt]
      obtain ⟨y, hy, hmem, hle, hall⟩ := ih a
      rw [hstep]
      refine ⟨y, hy, ?_, le_trans (le_of_lt hlt) hle, ?_⟩
      · cases hmem with
        | inl h => exact Or.inr (h ▸ List.mem_cons_self a t)
        | inr h => exact Or.inr (List.mem_cons_of_mem a h)
      · intro r hr
        rcases List.mem_cons.mp hr with h | h
        · rw [h]; exact hle
        · exact hall r h
    · have hstep : laterReading (some x) a = some x := by
        simp [laterReading, hlt]
      obtain ⟨y, hy, hmem, hle, hall⟩ := ih x
      rw [hstep]
      refine ⟨y, hy, ?_, hle, ?_⟩
      · cases hmem with
        | inl h => exact Or.inl h
        | inr h => exact Or.inr (List.mem_cons_of_mem a h)
      intro r hr
      rcases List.mem_cons.mp hr with h | h
      · rw [h]; exact le_trans (le_of_not_lt hlt) hle
      · exact hall r h

theorem foldl_laterReading_map (g : Reading → Reading)
    (hg : ∀ x, (g x).created_at = x.created_at)
    (l : List Reading) (acc : Option Reading) :
    (l.map g).foldl laterReading (acc.map g) = (l.foldl laterReading acc).map g := by
  induction l generalizing acc with
  | nil => rfl
  | cons a t ih =>
    show (t.map g).foldl laterReading (laterReading (acc.map g) (g a)) = _
    have hstep : laterReading (acc.map g) (g a) = (laterReading acc a).map g := by
      cases acc with
      | none => rfl
      | some b =>
        show laterReading (some (g b)) (g a) = (laterReading (some b) a).map g
        simp only [laterReading, hg a, hg b]
        by_cases h : b.created_at < a.created_at
        · rw [if_pos h, if_pos h]
          rfl
        · rw [if_neg h, if_neg h]
          rfl
    rw [hstep]
    exact ih _

/-- C9: the "previous" reading used for a room's next bill is the room's
latest meter reading — a row of maximal `created_at` for that room,
selected with no condition on `tenant_id` (so retagging every row's tenant
changes nothing and the chain survives tenant turnover) — and it is 0 when
the room has no reading at all. -/
theorem meter_reading_chain :
    (∀ (db : List Reading) (room : ℕ),
        (∀ r ∈ db, r.room_id ≠ room) → previousMeterForRoom db room = 0)
    ∧ (∀ (db : List Reading) (room : ℕ) (r : Reading),
        latestForRoom db room = some r →
        r ∈ db ∧ r.room_id = room
          ∧ (∀ r' ∈ db, r'.room_id = room → r'.created_at ≤ r.created_at)
          ∧ previousMeterForRoom db room = r.unit.getD 0)
    ∧ ∀ (db : List Reading) (room : ℕ) (g : Reading → Reading),
        (∀ x, (g x).room_id = x.room_id) →
        (∀ x, (g x).created_at = x.created_at) →
        (∀ x, (g x).unit = x.unit) →
        previousMeterForRoom (db.map g) room = previousMeterForRoom db room := by
  refine ⟨?_, ?_, ?_⟩
  · intro db room h
    have hnil : db.filter (fun r => r.room_id == room) = [] := by
      rw [List.filter_eq_nil_iff]
      intro r hr
      simpa using h r hr
    unfold previousMeterForRoom latestForRoom
    rw [hnil]
    rfl
  · intro db room r hlatest
    unfold latestForRoom at hlatest
    cases hfil : db.filter (fun x => x.room_id == room) with
    | nil =>
      rw [hfil] at hlatest
      cases hlatest
    | cons a t =>
      rw [hfil] at hlatest
      obtain ⟨y, hy, hmem, hle, hall⟩ := foldl_laterReading_spec t a
      have hy' : laterReading none a = some a := rfl
      rw [List.foldl_cons, hy', hy] at hlatest
      have hry : r = y := (Option.some.inj hlatest).symm
      subst hry
      have hrfil : r ∈ db.filter (fun x => x.room_id == room) := by
        rw [hfil]
        cases hmem with
        | inl h => rw [h]; exact List.mem_cons_self a t
        | inr h => exact List.mem_cons_of_mem a h
      have hmem' := List.mem_filter.mp hrfil
      refine ⟨hmem'.1, by simpa using hmem'.2, ?_, ?_⟩
      · intro r' hr' hroom
        have hr'fil : r' ∈ db.filter (fun x => x.room_id == room) :=
          List.mem_filter.mpr ⟨hr', by simpa using hroom⟩
        rw [hfil] at hr'fil
        rcases List.mem_cons.mp hr'fil with h | h
        · rw [h]; exact hle
        · exact hall r' h
      · unfold previousMeterForRoom latestForRoom
        rw [hfil, List.foldl_cons, hy', hy]
        rfl
  · intro db room g hroom hcreated hunit
    have hfil : (db.map g).filter (fun x => x.room_id == room) =
        (db.filter (fun x => x.room_id == room)).map g := by
      rw [List.filter_map]
      congr 1
      apply List.filter_congr
      intro x _
      simp [Function.comp, hroom x]
    unfold previousMeterForRoom latestForRoom
    rw [hfil]
    have hfold := foldl_laterReading_map g hcreated
      (db.filter (fun x => x.room_id == room)) none
    rw [show (Option.map g none = (none : Option Reading)) from rfl] at hfold
    rw [hfold]
    cases (db.filter (fun x => x.room_id == room)).foldl laterReading none with
    | none => rfl
    | some z => simp [hunit z]

/-- Witness for `meter_reading_chain` on a two-reading room 7 with two
different tenants: an unknown room yields 0, the reading with the larger
`created_at` (tenant 4) is the baseline, and retagging tenants changes
nothing. -/
theorem meter_reading_chain_witness :
    previousMeterForRoom [⟨1, 7, 3, some 100, 10⟩, ⟨2, 7, 4, some 150, 20⟩] 5 = 0
      ∧ previousMeterForRoom [⟨1, 7, 3, some 100, 10⟩, ⟨2, 7, 4, some 150, 20⟩] 7 =
          (some (150 : ℤ)).getD 0
      ∧ previousMeterForRoom
          (([⟨1, 7, 3, some 100, 10⟩,
             ⟨2, 7, 4, some 150, 20⟩] : List Reading).map
            (fun x => { x with tenant_id := 99 })) 7 =
          previousMeterForRoom [⟨1, 7, 3, some 100, 10⟩, ⟨2, 7, 4, some 150, 20⟩] 7 := by
  refine ⟨?_, ?_, ?_⟩
  · exact meter_reading_chain.1
      ([⟨1, 7, 3, some 100, 10⟩, ⟨2, 7, 4, some 150, 20⟩] : List Reading) 5 (by decide)
  · exact (meter_reading_chain.2.1
      ([⟨1, 7, 3, some 100, 10⟩, ⟨2, 7, 4, some 150, 20⟩] : List Reading) 7
      (⟨2, 7, 4, some 150, 20⟩ : Reading) (by decide)).2.2.2
  · exact meter_reading_chain.2.2
      ([⟨1, 7, 3, some 100, 10⟩, ⟨2, 7, 4, some 150, 20⟩] : List Reading) 7
      (fun x => { x with tenant_id := 99 })
      (fun x => rfl) (fun x => rfl) (fun x => rfl)

/-! ### Audit-log append: helper lemmas -/

theorem head?_str_append {s : String} (t : String) {c : Char}
    (h : s.data.head? = some c) : (s ++ t).data.head? = some c :=
  head?_append_of_head? h

theorem getLast?_str_append (s : String) {t : String} {c : Char}
    (h : t.data.getLast? = some c) : (s ++ t).data.getLast? = some c := by
  have ht : t.data ≠ [] := by
    intro hc
    rw [hc] at h
    cases h
  show (s.data ++ t.data).getLast? = some c
  rw [getLast?_append_of_ne_nil s.data ht]
  exact h

theorem paymentLine_head? (ts method : String) (a : ℚ) (note : String) (p q : ℚ) :
    (paymentLine ts method a note p q).data.head? = some '[' := by
  unfold paymentLine
  repeat apply head?_str_append
  rfl

theorem paymentLine_last? (ts method : String) (a : ℚ) (note : String) (p q : ℚ) :
    (paymentLine ts method a note p q).data.getLast? = some ')' := by
  unfold paymentLine
  apply getLast?_str_append
  decide

theorem savePaymentLine_head? (b : Bill) (a : ℚ) (ts m n : String) :
    (savePaymentLine b a ts m n).data.head? = some '[' :=
  paymentLine_head? ts m a (jsTrim n) _ _

theorem savePaymentLine_last? (b : Bill) (a : ℚ) (ts m n : String) :
    (savePaymentLine b a ts m n).data.getLast? = some ')' :=
  paymentLine_last? ts m a (jsTrim n) _ _

theorem jsTrim_fixed_of_edges {s : String}
    (hhead : s.data.head? = some '[') (hlast : s.data.getLast? = some ')') :
    jsTrim s = s := by
  show (⟨jsTrimList s.data⟩ : String) = s
  rw [jsTrimList_eq_self s.data
    (fun c hc => by
      rw [hhead] at hc
      rw [← Option.some.inj hc]
      decide)
    (fun c hc => by
      rw [hlast] at hc
      rw [← Option.some.inj hc]
      decide)]

theorem appendPaymentComment_some_canonical {s : String} (line : String)
    (hhead : s.data.head? = some '[') (hlast : s.data.getLast? = some ')') :
    appendPaymentComment (some s) line = s ++ "\n" ++ line := by
  have htrim : jsTrim s = s := jsTrim_fixed_of_edges hhead hlast
  show (if (jsTrim s).length ≠ 0 then jsTrim s ++ "\n" ++ line else line) = s ++ "\n" ++ line
  rw [htrim, if_pos (length_ne_zero_of_head? hhead)]

/-- C8: every accepted `record_payment` appends exactly the one audit line
`[timestamp] METHOD received AMOUNT [• note] (Paid X, Pending Y)` to
`paid_amount_comment`, keeping the entire previously stored log as an
unchanged prefix (append-only: never truncated, rewritten or reordered).
The hypothesis `CanonicalComment` — the stored log is absent or starts with
`'['` and ends with `')'` — holds for every bill the system produces: it
holds for a newly created bill (first conjunct) and every payment preserves
it (last conjunct). -/
theorem payment_comment_append_only :
    (∀ total : ℚ, CanonicalComment (newBill total).comment)
    ∧ ∀ (b : Bill) (a : ℚ) (ts m n : String),
        CanonicalComment b.comment → 0 < a → a ≤ b.pending →
        ((b.comment = none →
            (recordPayment b a ts m n).comment = some (savePaymentLine b a ts m n))
          ∧ (∀ s, b.comment = some s →
              (recordPayment b a ts m n).comment =
                some (s ++ "\n" ++ savePaymentLine b a ts m n))
          ∧ CanonicalComment (recordPayment b a ts m n).comment) := by
  constructor
  · intro total
    exact Or.inl rfl
  · intro b a ts m n hcanon ha hle
    have hcomment : (recordPayment b a ts m n).comment =
        some (appendPaymentComment b.comment (savePaymentLine b a ts m n)) := by
      unfold recordPayment
      rw [if_pos ⟨ha, hle⟩]
    refine ⟨?_, ?_, ?_⟩
    · intro hnone
      rw [hcomment, hnone]
      rfl
    · intro s hs
      rcases hcanon with hnone | ⟨s', hs', hh, hl⟩
      · rw [hs] at hnone
        cases hnone
      · rw [hs] at hs'
        have hss : s = s' := Option.some.inj hs'
        subst hss
        rw [hcomment, hs, appendPaymentComment_some_canonical _ hh hl]
    · rcases hcanon with hnone | ⟨s', hs', hh, hl⟩
      · rw [hcomment, hnone]
        exact Or.inr ⟨savePaymentLine b a ts m n, rfl,
          savePaymentLine_head? b a ts m n, savePaymentLine_last? b a ts m n⟩
      · rw [hcomment, hs', appendPaymentComment_some_canonical _ hh hl]
        refine Or.inr ⟨s' ++ "\n" ++ savePaymentLine b a ts m n, rfl, ?_, ?_⟩
        · exact head?_str_append _ (head?_str_append _ hh)
        · exact getLast?_str_append _ (savePaymentLine_last? b a ts m n)

/-- Witness for `payment_comment_append_only`: two consecutive payments on
a fresh 5600 bill — the first writes its line alone, the second appends to
the stored log without rewriting it. -/
theorem payment_comment_append_only_witness :
    (recordPayment (newBill 5600) 2000 "t1" "UPI" "n").comment =
        some (savePaymentLine (newBill 5600) 2000 "t1" "UPI" "n")
      ∧ ∀ s, (recordPayment (newBill 5600) 2000 "t1" "UPI" "n").comment = some s →
          (recordPayment (recordPayment (newBill 5600) 2000 "t1" "UPI" "n")
              3600 "t2" "CASH" "").comment =
            some (s ++ "\n" ++
              savePaymentLine (recordPayment (newBill 5600) 2000 "t1" "UPI" "n")
                3600 "t2" "CASH" "") := by
  have hb0 : Bill.pending (newBill 5600) = 5600 := by
    simp [Bill.pending, newBill]
  have hle1 : (2000 : ℚ) ≤ Bill.pending (newBill 5600) := by
    rw [hb0]
    norm_num
  have h1 := (payment_comment_append_only.2 (newBill 5600) 2000 "t1" "UPI" "n"
    (payment_comment_append_only.1 5600) (by norm_num) hle1)
  refine ⟨h1.1 rfl, ?_⟩
  intro s hs
  have hpend : Bill.pending (recordPayment (newBill 5600) 2000 "t1" "UPI" "n") = 3600 := by
    have hp : (recordPayment (newBill 5600) 2000 "t1" "UPI" "n").paid = 2000 := by
      rw [recordPayment_paid_valid _ _ _ _ _ ⟨by norm_num, hle1⟩]
      show min (5600 : ℚ) (0 + 2000) = 2000
      norm_num
    have ht : (recordPayment (newBill 5600) 2000 "t1" "UPI" "n").total = 5600 :=
      recordPayment_total _ _ _ _ _
    unfold Bill.pending
    rw [hp, ht]
    rw [show (5600 : ℚ) - 2000 = 3600 by norm_num]
    exact max_eq_right (by norm_num)
  have hle2 : (3600 : ℚ) ≤ Bill.pending (recordPayment (newBill 5600) 2000 "t1" "UPI" "n") :=
    le_of_eq hpend.symm
  have h2 := (payment_comment_append_only.2
    (recordPayment (newBill 5600) 2000 "t1" "UPI" "n") 3600 "t2" "CASH" ""
    h1.2.2 (by norm_num) hle2)
  exact h2.2.1 s hs

end TenantManager
